import Mathlib

/-!
Verification of the plist library (XML property-list codec).

This file shallowly embeds the library's core: the XML element model, the
serializer (`PListBuilder.serialize` / `totree` / `dumps`), the pretty-printer
(`tree2xml`), the deserializer (`deserialize` / `fromtree`), the base64
transcoder (`_b64`, i.e. Python `base64.encodebytes`/`decodebytes` on top of
`binascii`), and the vendored `iso8601.parse_date` date parser.

Python floats appear in two places (the `real` leaf type and the fractional
seconds conversion of `parse_date`); IEEE-754 arithmetic is kept abstract by
parametrising the embedding over the host's float type and its conversion
functions.
-/

set_option autoImplicit false
set_option maxRecDepth 4096

namespace Plist

/-! ## XML element model

Mirrors the slice of `xml.etree.ElementTree.Element` the library uses: a tag
(Python `None` for the anonymous text-holder the builder creates inside
`data`), an attribute list, the text (Python `None` when absent; an element
whose text is the empty string is stored with `text = None` both by the
parser and by the builder, which only calls `self.data(data)` for non-empty
`data`), and the child list. `tail` is never read by the library and is
omitted. -/

inductive Elem : Type where
  | mk (tag : Option String) (attrib : List (String × String))
       (text : Option String) (children : List Elem)

def Elem.tag : Elem → Option String
  | .mk t _ _ _ => t

def Elem.attrib : Elem → List (String × String)
  | .mk _ a _ _ => a

def Elem.text : Elem → Option String
  | .mk _ _ t _ => t

def Elem.children : Elem → List Elem
  | .mk _ _ _ c => c

/-! ## Python errors

One constructor per distinct exception the embedded code can raise:
`typeError` (`int(None)`, `float(None)`, `int(groups[...])` on a missing
regex group), `valueError` (`int('x')`, `datetime` field out of range),
`parseError` (`iso8601.ParseError`), `attributeError` (`None.encode()`),
`incorrectPadding` (`binascii.Error('Incorrect padding')`),
`incompleteDictionary` (`IndexError('Incomplete dictionary')`),
`missingKeyTag` (`ValueError('No dictionary key where expected')`),
`unknownTag` (`ValueError('Unknown tag: ...')`), and
`badPropertyList` (`ValueError('Bad property list')`). -/

inductive PyErr : Type where
  | typeError
  | valueError
  | parseError
  | attributeError
  | incorrectPadding
  | incompleteDictionary
  | missingKeyTag
  | unknownTag (tag : Option String)
  | badPropertyList
  deriving DecidableEq

/-- A timezone-aware or naive `datetime.datetime`: calendar fields plus the
UTC offset in minutes (`none` for a naive datetime). -/
structure PyDateTime : Type where
  year : Nat
  month : Nat
  day : Nat
  hour : Nat
  minute : Nat
  second : Nat
  microsecond : Nat
  tzOffsetMinutes : Option Int
  deriving DecidableEq

/-! ## The value model

The Python values the library converts, closed over the documented boundary
types (module docstring: dict/OrderedDict, list/tuple, str, bytes, int,
float, bool, plus `None` and `datetime`). Bytes are modelled as their byte
values. The host float type is a parameter `Flt`. A mapping is a key-unique
association list together with its provenance: `ordered = true` for an
`OrderedDict` (iteration order = insertion order), `false` for a plain
mapping (the serializer sorts the keys). -/

inductive PyVal (Flt : Type) : Type where
  | none
  | bool (b : Bool)
  | int (n : Int)
  | float (f : Flt)
  | str (s : String)
  | bytes (bs : List Nat)
  | datetime (dt : PyDateTime)
  | list (xs : List (PyVal Flt))
  | dict (ordered : Bool) (entries : List (String × PyVal Flt))

/-! ## Base64 transcoder (`_b64`, via `base64`/`binascii`)

`_b64.decodes2b(s)` is `base64.decodebytes(s.encode())`, which is
`binascii.a2b_base64` in its historical non-strict mode: characters outside
the base64 alphabet are silently skipped; a `=` closes the stream when the
current quad already holds at least two data characters (a lone `=` after
exactly two data characters closes it only when the next valid character —
alphabet or pad — is another `=`); at end of input, residual bits raise
`binascii.Error('Incorrect padding')`. -/

def b64val (c : Char) : Option Nat :=
  if 'A' ≤ c ∧ c ≤ 'Z' then some (c.toNat - 'A'.toNat)
  else if 'a' ≤ c ∧ c ≤ 'z' then some (c.toNat - 'a'.toNat + 26)
  else if '0' ≤ c ∧ c ≤ '9' then some (c.toNat - '0'.toNat + 52)
  else if c = '+' then some 62
  else if c = '/' then some 63
  else Option.none

/-- Is the next valid character (base64 alphabet or pad) the pad `=`?
Models `binascii_find_valid(ascii_data, ascii_len, 1) == BASE64_PAD`. -/
def nextValidIsPad (cs : List Char) : Bool :=
  match cs.find? (fun c => c == '=' || (b64val c).isSome) with
  | some c => c == '='
  | Option.none => false

/-- The `binascii.a2b_base64` accumulation loop. `quadPos`, `leftchar`,
`leftbits` and the reversed output accumulator mirror the C state
variables. -/
def a2bLoop : List Char → Nat → Nat → Nat → List Nat → Except PyErr (List Nat)
  | [], _, _, leftbits, acc =>
      if leftbits ≠ 0 then .error .incorrectPadding else .ok acc.reverse
  | c :: rest, quadPos, leftchar, leftbits, acc =>
      if c = '=' then
        if quadPos < 2 ∨ (quadPos = 2 ∧ ¬ nextValidIsPad rest) then
          a2bLoop rest quadPos leftchar leftbits acc
        else
          .ok acc.reverse
      else
        match b64val c with
        | Option.none => a2bLoop rest quadPos leftchar leftbits acc
        | some v =>
            let leftchar' := leftchar * 64 + v
            let leftbits' := leftbits + 6
            if leftbits' ≥ 8 then
              a2bLoop rest ((quadPos + 1) % 4) (leftchar' % 2 ^ (leftbits' - 8))
                (leftbits' - 8) ((leftchar' / 2 ^ (leftbits' - 8)) % 256 :: acc)
            else
              a2bLoop rest ((quadPos + 1) % 4) leftchar' leftbits' acc

/-- `_b64.decodes2b`: base64 string to bytes. -/
def decodes2b (s : String) : Except PyErr (List Nat) :=
  a2bLoop s.data 0 0 0 []

/-- The base64 alphabet character for a 6-bit value. -/
def b64char (n : Nat) : Char :=
  if n < 26 then Char.ofNat ('A'.toNat + n)
  else if n < 52 then Char.ofNat ('a'.toNat + n - 26)
  else if n < 62 then Char.ofNat ('0'.toNat + n - 52)
  else if n = 62 then '+'
  else '/'

/-- Raw base64 encoding of a byte list (no line breaks). -/
def b64encodeRaw : List Nat → List Char
  | b1 :: b2 :: b3 :: rest =>
      let w := (b1 % 256) * 65536 + (b2 % 256) * 256 + b3 % 256
      b64char (w / 262144) :: b64char (w / 4096 % 64) :: b64char (w / 64 % 64)
        :: b64char (w % 64) :: b64encodeRaw rest
  | [b1, b2] =>
      let w := (b1 % 256) * 1024 + (b2 % 256) * 4
      [b64char (w / 4096), b64char (w / 64 % 64), b64char (w % 64), '=']
  | [b1] =>
      let w := (b1 % 256) * 16
      [b64char (w / 64), b64char (w % 64), '=', '=']
  | [] => []

/-- Split a byte list into chunks of at most 57 bytes (the `MAXBINSIZE`
lines of `base64.encodebytes`). `n` counts the room left in the current
chunk, `acc` holds the current chunk reversed. -/
def chunks57Aux : Nat → List Nat → List Nat → List (List Nat)
  | _, acc, [] => if acc.isEmpty then [] else [acc.reverse]
  | n, acc, b :: bs =>
      if n ≤ 1 then (b :: acc).reverse :: chunks57Aux 57 [] bs
      else chunks57Aux (n - 1) (b :: acc) bs

/-- `base64.encodebytes`: encode in 57-byte chunks, each producing one
newline-terminated line (empty input produces empty output). -/
def encodebytes (bs : List Nat) : String :=
  ((chunks57Aux 57 [] bs).map
    (fun chunk => String.mk (b64encodeRaw chunk) ++ "\n")).foldl (· ++ ·) ""

/-- `_b64.encodeb2s`: bytes to base64 string. -/
def encodeb2s (bs : List Nat) : String :=
  encodebytes bs

/-- `WHITESPACE_RE.sub('', s)` with `WHITESPACE_RE = ^\s+|\n|\r|\s+$`:
every newline and carriage return is removed and so are the leading and
trailing whitespace runs. -/
def wsSub (s : String) : String :=
  let noNl := s.data.filter (fun c => ¬ (c = '\n' ∨ c = '\r'))
  String.mk ((noNl.dropWhile Char.isWhitespace).reverse.dropWhile
    Char.isWhitespace).reverse

/-! ## Python `int()` on strings

`int(s)` strips surrounding whitespace, accepts an optional sign and a
non-empty digit run (PEP 515 allows single underscores between digits), and
raises `ValueError` otherwise; `int(None)` raises `TypeError`. -/

def digitVal (c : Char) : Nat :=
  c.toNat - '0'.toNat

/-- Digit run with single underscores allowed between digits, continuing an
already-seen leading digit accumulated in `acc`. -/
def goDigits : Nat → List Char → Option Nat
  | acc, [] => some acc
  | acc, c :: cs =>
      if c.isDigit then goDigits (acc * 10 + digitVal c) cs
      else if c = '_' then
        match cs with
        | d :: cs' => if d.isDigit then goDigits (acc * 10 + digitVal d) cs' else Option.none
        | [] => Option.none
      else Option.none

/-- A non-empty digit run (underscores allowed between digits). -/
def parseDigits : List Char → Option Nat
  | [] => Option.none
  | c :: cs => if c.isDigit then goDigits (digitVal c) cs else Option.none

/-- Python `int(s)` for a string argument: strip surrounding whitespace,
accept an optional sign, then a digit run. -/
def pyIntOfString (s : String) : Except PyErr Int :=
  let cs := ((s.data.dropWhile Char.isWhitespace).reverse.dropWhile
    Char.isWhitespace).reverse
  match cs with
  | [] => .error .valueError
  | c :: rest =>
      if c = '+' then
        match parseDigits rest with
        | some n => .ok (n : Int)
        | Option.none => .error .valueError
      else if c = '-' then
        match parseDigits rest with
        | some n => .ok (-(n : Int))
        | Option.none => .error .valueError
      else
        match parseDigits (c :: rest) with
        | some n => .ok (n : Int)
        | Option.none => .error .valueError

/-- `int(groups[name])`: regex groups are strings or `None`, and `int(None)`
raises `TypeError`. -/
def pyIntOfGroup : Option String → Except PyErr Int
  | Option.none => .error .typeError
  | some s => pyIntOfString s

/-! ## `iso8601.py`

`ISO8601_REGEX` is
`(?P<year>[0-9]{4})(-(?P<month>[0-9]{1,2})(-(?P<day>[0-9]{1,2})`
`((?P<separator>.)(?P<hour>[0-9]{2}):(?P<minute>[0-9]{2})`
`(:(?P<second>[0-9]{2})(\.(?P<fraction>[0-9]+))?)?`
`(?P<timezone>Z|(([-+])([0-9]{2}):([0-9]{2})))?)?)?)?`
used with `re.match` (anchored at the start only, trailing input ignored).
Every group after the year is optional; since each is optional, the regex
never needs to backtrack across group boundaries, so a deterministic
greedy parser is an exact model. -/

structure Iso8601Groups : Type where
  year : String
  month : Option String
  day : Option String
  separator : Option Char
  hour : Option String
  minute : Option String
  second : Option String
  fraction : Option String
  timezone : Option String
  deriving DecidableEq

/-- Exactly `n` digits. -/
def takeDigits : Nat → List Char → Option (List Char × List Char)
  | 0, cs => some ([], cs)
  | _ + 1, [] => Option.none
  | n + 1, c :: cs =>
      if c.isDigit then
        match takeDigits n cs with
        | some (ds, rest) => some (c :: ds, rest)
        | Option.none => Option.none
      else Option.none

/-- `[0-9]{1,2}`, greedy. -/
def take1or2Digits : List Char → Option (List Char × List Char)
  | [] => Option.none
  | [c] => if c.isDigit then some ([c], []) else Option.none
  | c1 :: c2 :: rest =>
      if c1.isDigit then
        if c2.isDigit then some ([c1, c2], rest) else some ([c1], c2 :: rest)
      else Option.none

/-- Consume one expected literal character, or fail. -/
def expectChar (c : Char) : List Char → Option (List Char)
  | [] => Option.none
  | x :: xs => if x = c then some xs else Option.none

/-- `(?P<timezone>Z|(([-+])([0-9]{2}):([0-9]{2})))`. -/
def matchTzGroup (cs : List Char) : Option (String × List Char) :=
  match cs with
  | [] => Option.none
  | c :: rest =>
      if c = 'Z' then some ("Z", rest)
      else if c = '+' ∨ c = '-' then
        match takeDigits 2 rest with
        | Option.none => Option.none
        | some (hh, rest1) =>
            match expectChar ':' rest1 with
            | Option.none => Option.none
            | some rest2 =>
                match takeDigits 2 rest2 with
                | Option.none => Option.none
                | some (mm, rest3) =>
                    some (String.mk (c :: (hh ++ ':' :: mm)), rest3)
      else Option.none

/-- `(:(?P<second>[0-9]{2})(\.(?P<fraction>[0-9]+))?)?`:
returns the second and fraction groups and the remaining input (unchanged
when the optional group does not match). -/
def matchSecondGroup (cs : List Char) :
    Option String × Option String × List Char :=
  match expectChar ':' cs with
  | Option.none => (Option.none, Option.none, cs)
  | some rest =>
      match takeDigits 2 rest with
      | Option.none => (Option.none, Option.none, cs)
      | some (ss, rest2) =>
          match expectChar '.' rest2 with
          | Option.none => (some (String.mk ss), Option.none, rest2)
          | some rest3 =>
              let frac := rest3.takeWhile Char.isDigit
              if frac.isEmpty then (some (String.mk ss), Option.none, rest2)
              else (some (String.mk ss), some (String.mk frac),
                rest3.dropWhile Char.isDigit)

/-- `((?P<separator>.)(?P<hour>[0-9]{2}):(?P<minute>[0-9]{2})...)?`: the
whole time group, `none` when it does not match (the regex `.` matches any
character except a newline). -/
def matchTimeGroup (cs : List Char) :
    Option (Char × String × String × Option String × Option String ×
      Option String) :=
  match cs with
  | [] => Option.none
  | sep :: rest =>
      if sep = '\n' then Option.none
      else
        match takeDigits 2 rest with
        | Option.none => Option.none
        | some (hh, rest1) =>
            match expectChar ':' rest1 with
            | Option.none => Option.none
            | some rest2 =>
                match takeDigits 2 rest2 with
                | Option.none => Option.none
                | some (mi, rest3) =>
                    let sfr := matchSecondGroup rest3
                    let tz : Option String :=
                      match matchTzGroup sfr.2.2 with
                      | some (t, _) => some t
                      | Option.none => Option.none
                    some (sep, String.mk hh, String.mk mi, sfr.1, sfr.2.1, tz)

/-- `ISO8601_REGEX.match(datestring)`: the group dictionary on success. -/
def iso8601Match (s : String) : Option Iso8601Groups :=
  match takeDigits 4 s.data with
  | Option.none => Option.none
  | some (yyyy, rest) =>
      let base : Iso8601Groups :=
        ⟨String.mk yyyy, Option.none, Option.none, Option.none, Option.none,
          Option.none, Option.none, Option.none, Option.none⟩
      match expectChar '-' rest with
      | Option.none => some base
      | some rest1 =>
          match take1or2Digits rest1 with
          | Option.none => some base
          | some (mo, rest2) =>
              match expectChar '-' rest2 with
              | Option.none => some { base with month := some (String.mk mo) }
              | some rest3 =>
                  match take1or2Digits rest3 with
                  | Option.none =>
                      some { base with month := some (String.mk mo) }
                  | some (dd, rest4) =>
                      match matchTimeGroup rest4 with
                      | Option.none =>
                          some { base with
                            month := some (String.mk mo),
                            day := some (String.mk dd) }
                      | some (sep, hh, mi, sec, frac, tz) =>
                          some ⟨String.mk yyyy, some (String.mk mo),
                            some (String.mk dd), some sep, some hh,
                            some mi, sec, frac, tz⟩

/-- `parse_timezone` for the strings `ISO8601_REGEX` can produce:
`None` or `"Z"` map to the default timezone (UTC, offset 0); `±hh:mm` maps
to the signed offset in minutes (via `TIMEZONE_REGEX`, whose groups are the
sign, two hour digits and two minute digits). Only called on
regex-validated timezone strings. -/
def parse_timezone (tzstring : Option String) : Int :=
  match tzstring with
  | Option.none => 0
  | some s =>
      if s = "Z" then 0
      else
        match s.data with
        | p :: h1 :: h2 :: _ :: m1 :: m2 :: _ =>
            let hours : Int := (10 * digitVal h1 + digitVal h2 : Nat)
            let minutes : Int := (10 * digitVal m1 + digitVal m2 : Nat)
            if p = '-' then -(hours * 60 + minutes) else hours * 60 + minutes
        | _ => 0

/-- Gregorian leap year, as `datetime` checks it. -/
def isLeapYear (y : Nat) : Bool :=
  (y % 4 == 0 && y % 100 != 0) || y % 400 == 0

def daysInMonth (y m : Nat) : Nat :=
  if m = 2 then (if isLeapYear y then 29 else 28)
  else if m = 4 ∨ m = 6 ∨ m = 9 ∨ m = 11 then 30
  else 31

/-- The `datetime.datetime` constructor: validates every field
(`MINYEAR = 1`, `MAXYEAR = 9999`, `0 ≤ microsecond ≤ 999999`, ...) and
raises `ValueError` when one is out of range. -/
def mkDatetime (y mo d h mi s : Int) (us : Nat) (tz : Option Int) :
    Except PyErr PyDateTime :=
  if 1 ≤ y ∧ y ≤ 9999 ∧ 1 ≤ mo ∧ mo ≤ 12 ∧ 1 ≤ d ∧
      d ≤ (daysInMonth y.toNat mo.toNat : Int) ∧ 0 ≤ h ∧ h ≤ 23 ∧
      0 ≤ mi ∧ mi ≤ 59 ∧ 0 ≤ s ∧ s ≤ 59 ∧ us ≤ 999999 then
    .ok ⟨y.toNat, mo.toNat, d.toNat, h.toNat, mi.toNat, s.toNat, us, tz⟩
  else
    .error .valueError

/-- `iso8601.parse_date`. The fractional-second conversion
`int(float("0.%s" % fraction) * 1e6)` runs through IEEE-754 doubles and is
kept abstract as the parameter `fracToMicro`; a missing fraction defaults
to `0`. A non-string argument (the element text being `None`) raises
`ParseError`, as does a string the regex does not match. The remaining
groups are converted with `int(...)`, so a missing month, day, hour,
minute or second raises `TypeError` (`int(None)`). -/
def parse_date (fracToMicro : String → Nat) (datestring : Option String) :
    Except PyErr PyDateTime :=
  match datestring with
  | Option.none => .error .parseError
  | some ds =>
      match iso8601Match ds with
      | Option.none => .error .parseError
      | some g =>
          let tz := parse_timezone g.timezone
          let fraction : Nat :=
            match g.fraction with
            | Option.none => 0
            | some f => fracToMicro f
          match pyIntOfGroup (some g.year) with
          | .error e => .error e
          | .ok y =>
              match pyIntOfGroup g.month with
              | .error e => .error e
              | .ok mo =>
                  match pyIntOfGroup g.day with
                  | .error e => .error e
                  | .ok d =>
                      match pyIntOfGroup g.hour with
                      | .error e => .error e
                      | .ok h =>
                          match pyIntOfGroup g.minute with
                          | .error e => .error e
                          | .ok mi =>
                              match pyIntOfGroup g.second with
                              | .error e => .error e
                              | .ok sec =>
                                  mkDatetime y mo d h mi sec fraction (some tz)

/-- `datetime.isoformat()`: `YYYY-MM-DDTHH:MM:SS`, `.ffffff` only when the
microsecond field is non-zero, and the `±HH:MM` offset for aware
datetimes. -/
def padNum (width n : Nat) : String :=
  let s := toString n
  String.mk (List.replicate (width - s.length) '0') ++ s

def isoformat (dt : PyDateTime) : String :=
  padNum 4 dt.year ++ "-" ++ padNum 2 dt.month ++ "-" ++ padNum 2 dt.day ++
    "T" ++ padNum 2 dt.hour ++ ":" ++ padNum 2 dt.minute ++ ":" ++
    padNum 2 dt.second ++
    (if dt.microsecond ≠ 0 then "." ++ padNum 6 dt.microsecond else "") ++
    (match dt.tzOffsetMinutes with
     | Option.none => ""
     | some off =>
         (if off < 0 then "-" else "+") ++ padNum 2 (off.natAbs / 60) ++ ":" ++
           padNum 2 (off.natAbs % 60))

/-! ## Serialization (`PListBuilder`, `totree`, `tree2xml`, `dumps`) -/

/-- Python truthiness of a `str`-or-`None` value (`if data:` / `if text:`). -/
def textTruthy (t : Option String) : Bool :=
  t.getD "" ≠ ""

/-- `str(data)` for the `str`-or-`None` arguments `PListBuilder.tag`
receives: `str(None)` is the four-character string `"None"`. -/
def strOfOpt : Option String → String
  | Option.none => "None"
  | some s => s

/-- `PListBuilder.tag(name, data=None)`: a childless element carrying
`str(data)` as text when that string is non-empty. Note that the default
`data=None` stringifies to the *truthy* `"None"`. -/
def tagElem (name : Option String) (data : Option String) : Elem :=
  let s := strOfOpt data
  .mk name [] (if s = "" then Option.none else some s) []

/-- Stable insertion of a key/value pair into a key-sorted list (before the
first entry with a strictly greater key). -/
def insertByKey {α : Type} (p : String × α) :
    List (String × α) → List (String × α)
  | [] => [p]
  | q :: qs => if q.1 < p.1 then q :: insertByKey p qs else p :: q :: qs

/-- Python `sorted` on key/value pairs compared by key: a stable sort into
ascending (code-point lexicographic) key order. -/
def sortByKey {α : Type} : List (String × α) → List (String × α)
  | [] => []
  | p :: ps => insertByKey p (sortByKey ps)

/-- The iteration order `PListBuilder.serialize` uses for a mapping:
`data.keys()` in insertion order for an `OrderedDict`, `sorted(data.keys())`
otherwise. -/
def dictOrder {α : Type} (ordered : Bool) (ps : List (String × α)) :
    List (String × α) :=
  if ordered then ps else sortByKey ps

section Serialize

variable {Flt : Type} (floatRepr : Flt → String)

/-- `any(data is s for s in TYPES_STATIC)`: identity against `True`,
`False`, `None`. (`1 is True` and `0 is False` are false in Python, so
plain ints never pass this check.) -/
def isStatic : PyVal Flt → Bool
  | .bool _ => true
  | .none => true
  | _ => false

/-- `TYPES_STATIC[data]` for values passing the identity check. -/
def typesStatic : PyVal Flt → String
  | .bool true => "true"
  | .bool false => "false"
  | _ => "undef"

/-- `isinstance(data, str)`. -/
def isinstanceStr : PyVal Flt → Bool
  | .str _ => true
  | _ => false

/-- `isinstance(data, int)`: `bool` is a subtype of `int` in Python, so
both variants pass. -/
def isinstanceInt : PyVal Flt → Bool
  | .int _ => true
  | .bool _ => true
  | _ => false

/-- `isinstance(data, float)` (`bool` is not a `float` subtype). -/
def isinstanceFloat : PyVal Flt → Bool
  | .float _ => true
  | _ => false

/-- `TYPES_WRAP.get(next((t for t in TYPES_WRAP if isinstance(data, t)),
None))`: the first of `str`, `int`, `float` (dict insertion order) the
value is an instance of. -/
def wrapType (data : PyVal Flt) : Option String :=
  if isinstanceStr data then some "string"
  else if isinstanceInt data then some "integer"
  else if isinstanceFloat data then some "real"
  else Option.none

/-! `PListBuilder.serialize`. Dispatch in the source: the identity check
against `TYPES_STATIC` (`True`/`False`/`None`) runs first, then the
`TYPES_WRAP` `isinstance` lookup (`str`/`int`/`float`, with `repr` for
floats), then `datetime`, `bytes`, `Mapping`, `Sequence`. A Lean match on
the closed value type realises the same dispatch outcome; in particular
`bool` and `none` are matched before `int` even though
`isinstance(True, int)` holds. For a non-ordered mapping the source sorts
the keys before serializing each value; serializing each entry first and
then stably sorting the resulting pairs by key yields the same element
(proved as `serialize_dict_sorts_keys` below). -/
mutual

def serializeVal : PyVal Flt → Elem
  | .bool true => tagElem (some "true") Option.none
  | .bool false => tagElem (some "false") Option.none
  | .none => tagElem (some "undef") Option.none
  | .str s => tagElem (some "string") (some s)
  | .int n => tagElem (some "integer") (some (toString n))
  | .float f => tagElem (some "real") (some (floatRepr f))
  | .datetime dt => tagElem (some "date") (some (isoformat dt))
  | .bytes bs =>
      .mk (some "data") [] Option.none
        [tagElem Option.none (some (wsSub (encodeb2s bs)))]
  | .dict ordered entries =>
      .mk (some "dict") [] Option.none
        ((dictOrder ordered (serializeEntries entries)).flatMap
          (fun p => [tagElem (some "key") (some p.1), p.2]))
  | .list xs => .mk (some "array") [] Option.none (serializeList xs)

def serializeList : List (PyVal Flt) → List Elem
  | [] => []
  | x :: xs => serializeVal x :: serializeList xs

def serializeEntries : List (String × PyVal Flt) → List (String × Elem)
  | [] => []
  | (k, v) :: rest => (k, serializeVal v) :: serializeEntries rest

end

/-- `totree` / `PListBuilder.__init__`: a `plist` root with the
`version="1.0"` attribute wrapping the serialized value. -/
def totree (data : PyVal Flt) : Elem :=
  .mk (some "plist") [("version", "1.0")] Option.none [serializeVal floatRepr data]

end Serialize

/-- The fixed XML declaration and DOCTYPE (`PLISTHEADER`). -/
def PLISTHEADER : String :=
  "<?xml version=\"1.0\" encoding=\"UTF-8\"?>\n" ++
  "<!DOCTYPE plist PUBLIC \"-//Apple Computer//DTD PLIST 1.0//EN\"\n" ++
  "\t\"http://www.apple.com/DTDs/PropertyList-1.0.dtd\">\n"

def tabs (i : Nat) : String :=
  String.mk (List.replicate i '\t')

/-- `' {}="{}"'.format(k, v)` over `elem.items()`. -/
def attrsString (attrib : List (String × String)) : String :=
  (attrib.map (fun kv => " " ++ kv.1 ++ "=\"" ++ kv.2 ++ "\"")).foldl (· ++ ·) ""

/-! `tree2xml`: the indenting pretty-printer. An element with neither text
nor children self-closes; text-only elements are written on one line;
children are indented one extra level (`init_increment` applies to the
first level only — recursive calls use the default increment `1`); a
tagless element writes its text as a raw indented line. -/
mutual

def tree2xml (elem : Elem) (i : Nat) (initIncrement : Nat) : String :=
  match elem with
  | .mk tag attrib text children =>
      let I := tabs i
      match tag with
      | Option.none =>
          (if textTruthy text then I ++ text.getD "" ++ "\n" else "") ++
            tree2xmlList children (i + initIncrement)
      | some t =>
          I ++ "<" ++ t ++ attrsString attrib ++
            (if textTruthy text || !children.isEmpty then
              ">" ++ (if textTruthy text then text.getD "" else "\n") ++
                tree2xmlList children (i + initIncrement) ++
                (if textTruthy text then "" else I) ++ "</" ++ t ++ ">\n"
            else "/>\n")

def tree2xmlList : List Elem → Nat → String
  | [], _ => ""
  | e :: es, i => tree2xml e i 1 ++ tree2xmlList es i

end

/-- `dumps` (via `dump` on a string buffer): the header followed by the
pretty-printed tree, with `init_increment=0` so the root's child sits at
indentation level 0. -/
def dumps {Flt : Type} (floatRepr : Flt → String) (data : PyVal Flt) : String :=
  PLISTHEADER ++ tree2xml (totree floatRepr data) 0 0

/-! ## Deserialization (`deserialize`, `fromtree`) -/

/-- `OrderedDict.__setitem__`: an existing key keeps its position and gets
the new value; a new key is appended. -/
def odInsert {α : Type} (l : List (String × α)) (k : String) (v : α) :
    List (String × α) :=
  if l.any (fun p => p.1 == k) then
    l.map (fun p => if p.1 == k then (p.1, v) else p)
  else
    l ++ [(k, v)]

section Deserialize

variable {Flt : Type} (floatOfStr : String → Except PyErr Flt)
  (fracToMicro : String → Nat)

/-! `deserialize`: dispatch on the element's tag — `TAGS_STATIC`
(`true`/`false`/`undef`), then `TAGS_TEXT` applied to `element.text`
(`int`, `float`, `parse_date`, `_b64.decodes2b`, `str` — so an absent text
becomes `int(None)`/`float(None)` `TypeError`, `None.encode()`
`AttributeError`, `parse_date(None)` `ParseError`, and `str(None)`, the
string `"None"`), then `array` and `dict`, else
`ValueError('Unknown tag')`. A `dict` with an odd child count raises
`IndexError('Incomplete dictionary')` before any pair is examined;
otherwise consecutive pairs are processed left to right, raising
`ValueError('No dictionary key where expected')` on a non-`key` element in
key position, and inserting into an `OrderedDict` (last write wins). The
source stores the raw `key.text` as mapping key; a `key` element parsed
from XML never has empty-string text (`ElementTree` stores absent text as
`None`), and the model, which is string-keyed, represents the absent text
as the empty string. -/
mutual

def deserialize (element : Elem) : Except PyErr (PyVal Flt) :=
  match element with
  | .mk tag _attrib text children =>
      if tag = some "true" then .ok (.bool true)
      else if tag = some "false" then .ok (.bool false)
      else if tag = some "undef" then .ok .none
      else if tag = some "integer" then
        match text with
        | Option.none => .error .typeError
        | some s => (pyIntOfString s).map .int
      else if tag = some "real" then
        match text with
        | Option.none => .error .typeError
        | some s => (floatOfStr s).map .float
      else if tag = some "date" then (parse_date fracToMicro text).map .datetime
      else if tag = some "data" then
        match text with
        | Option.none => .error .attributeError
        | some s => (decodes2b s).map .bytes
      else if tag = some "string" then .ok (.str (strOfOpt text))
      else if tag = some "array" then (deserializeList children).map .list
      else if tag = some "dict" then
        if children.length % 2 ≠ 0 then .error .incompleteDictionary
        else
          (deserializePairs children).map (fun ps =>
            .dict true (ps.foldl (fun acc p => odInsert acc p.1 p.2) []))
      else .error (.unknownTag tag)

def deserializeList : List Elem → Except PyErr (List (PyVal Flt))
  | [] => .ok []
  | e :: es =>
      match deserialize e with
      | .error er => .error er
      | .ok v =>
          match deserializeList es with
          | .error er => .error er
          | .ok vs => .ok (v :: vs)

def deserializePairs : List Elem → Except PyErr (List (String × PyVal Flt))
  | [] => .ok []
  | key :: value :: rest =>
      if key.tag ≠ some "key" then .error .missingKeyTag
      else
        match deserialize value with
        | .error er => .error er
        | .ok v =>
            match deserializePairs rest with
            | .error er => .error er
            | .ok r => .ok ((key.text.getD "", v) :: r)
  | [_] => .error .incompleteDictionary

end

/-- `fromtree`: the root must be a `plist` element with exactly one child
(else `ValueError('Bad property list')`), which is deserialized. -/
def fromtree (tree : Elem) : Except PyErr (PyVal Flt) :=
  if tree.tag ≠ some "plist" ∨ tree.children.length ≠ 1 then
    .error .badPropertyList
  else
    match tree.children with
    | child :: _ => deserialize floatOfStr fracToMicro child
    | [] => .error .badPropertyList

end Deserialize

/-! ## Concrete host-float instantiations

Several claims involve only float-free values; for those the abstract host
float type is instantiated with `Unit` and arbitrary conversion
functions. -/

def unitFloatRepr : Unit → String := fun _ => "0.0"

def unitFloatOfStr : String → Except PyErr Unit := fun _ => .error .valueError

def zeroFracToMicro : String → Nat := fun _ => 0

/-! ## The canonical Apple example (`TestPlist.example` / `TestPlist.converted`) -/

/-- The reference document, byte for byte. -/
def exampleDocument : String :=
  "<?xml version=\"1.0\" encoding=\"UTF-8\"?>\n" ++
  "<!DOCTYPE plist PUBLIC \"-//Apple Computer//DTD PLIST 1.0//EN\"\n" ++
  "\t\"http://www.apple.com/DTDs/PropertyList-1.0.dtd\">\n" ++
  "<plist version=\"1.0\">\n" ++
  "<dict>\n" ++
  "\t<key>Year Of Birth</key>\n" ++
  "\t<integer>1965</integer>\n" ++
  "\t<key>Pets Names</key>\n" ++
  "\t<array/>\n" ++
  "\t<key>Picture</key>\n" ++
  "\t<data>\n" ++
  "\t\tPEKBpYGlmYFCPA==\n" ++
  "\t</data>\n" ++
  "\t<key>City of Birth</key>\n" ++
  "\t<string>Springfield</string>\n" ++
  "\t<key>Name</key>\n" ++
  "\t<string>John Doe</string>\n" ++
  "\t<key>Kids Names</key>\n" ++
  "\t<array>\n" ++
  "\t\t<string>John</string>\n" ++
  "\t\t<string>Kyra</string>\n" ++
  "\t</array>\n" ++
  "</dict>\n" ++
  "</plist>\n"

def keyElemOf (s : String) : Elem :=
  .mk (some "key") [] (some s) []

def stringElemOf (s : String) : Elem :=
  .mk (some "string") [] (some s) []

/-- The element tree `xml.etree.ElementTree` produces for
`exampleDocument` (the XML parser is an external collaborator; whitespace
between tags becomes the text of the enclosing element, and an element
with no enclosed characters gets text `None`). -/
def exampleTree : Elem :=
  .mk (some "plist") [("version", "1.0")] (some "\n")
    [.mk (some "dict") [] (some "\n\t")
      [keyElemOf "Year Of Birth",
       .mk (some "integer") [] (some "1965") [],
       keyElemOf "Pets Names",
       .mk (some "array") [] Option.none [],
       keyElemOf "Picture",
       .mk (some "data") [] (some "\n\t\tPEKBpYGlmYFCPA==\n\t") [],
       keyElemOf "City of Birth",
       stringElemOf "Springfield",
       keyElemOf "Name",
       stringElemOf "John Doe",
       keyElemOf "Kids Names",
       .mk (some "array") [] (some "\n\t\t")
         [stringElemOf "John", stringElemOf "Kyra"]]]

/-- The documented ordered mapping (`TestPlist.converted`). -/
def exampleValue : PyVal Unit :=
  .dict true
    [("Year Of Birth", .int 1965),
     ("Pets Names", .list []),
     ("Picture", .bytes [60, 66, 129, 165, 129, 165, 153, 129, 66, 60]),
     ("City of Birth", .str "Springfield"),
     ("Name", .str "John Doe"),
     ("Kids Names", .list [.str "John", .str "Kyra"])]

/-! ## Helper lemmas -/

/-- The `a2b_base64` loop in its initial state maps an input without a
single base64-alphabet character to empty bytes: every such character —
including a premature `=`, which in quad position 0 falls under the
`quad_pos < 2` rule — is skipped, and no residual bits remain at the
end. -/
theorem a2bLoop_all_invalid : ∀ (cs : List Char),
    (∀ c ∈ cs, b64val c = Option.none) → a2bLoop cs 0 0 0 [] = .ok []
  | [], _ => rfl
  | c :: rest, h => by
      have hc : b64val c = Option.none := h c (List.mem_cons_self c rest)
      have hr : ∀ c' ∈ rest, b64val c' = Option.none :=
        fun c' hc' => h c' (List.mem_cons_of_mem _ hc')
      unfold a2bLoop
      by_cases hpad : c = '='
      · simp only [hpad, if_pos rfl]
        rw [if_pos (Or.inl (by norm_num))]
        exact a2bLoop_all_invalid rest hr
      · rw [if_neg hpad, hc]
        exact a2bLoop_all_invalid rest hr

/-- A digit character is not whitespace and is neither sign character. -/
theorem digit_char_facts {c : Char} (h : c.isDigit = true) :
    c.isWhitespace = false ∧ c ≠ '+' ∧ c ≠ '-' := by
  simp only [Char.isDigit, Bool.and_eq_true, decide_eq_true_eq] at h
  obtain ⟨h1, h2⟩ := h
  refine ⟨?_, ?_, ?_⟩
  · simp only [Char.isWhitespace, Bool.or_eq_false_iff, decide_eq_false_iff_not]
    refine ⟨⟨⟨?_, ?_⟩, ?_⟩, ?_⟩ <;> (rintro rfl; revert h1 h2; decide)
  · rintro rfl; revert h1 h2; decide
  · rintro rfl; revert h1 h2; decide

theorem dropWhile_eq_self_of (p : Char → Bool) :
    ∀ (cs : List Char), (∀ c ∈ cs, p c = false) → cs.dropWhile p = cs
  | [], _ => rfl
  | c :: cs, h => by
      have hc : p c = false := h c (List.mem_cons_self c cs)
      simp [List.dropWhile_cons, hc]

/-- Stripping surrounding whitespace from an all-digit character list is
the identity. -/
theorem strip_of_digits (cs : List Char) (hd : ∀ c ∈ cs, c.isDigit = true) :
    ((cs.dropWhile Char.isWhitespace).reverse.dropWhile
      Char.isWhitespace).reverse = cs := by
  have h1 : cs.dropWhile Char.isWhitespace = cs :=
    dropWhile_eq_self_of _ cs (fun c hc => (digit_char_facts (hd c hc)).1)
  rw [h1]
  have h2 : cs.reverse.dropWhile Char.isWhitespace = cs.reverse :=
    dropWhile_eq_self_of _ _
      (fun c hc => (digit_char_facts (hd c (List.mem_reverse.mp hc))).1)
  rw [h2, List.reverse_reverse]

theorem goDigits_of_digits : ∀ (cs : List Char) (acc : Nat),
    (∀ c ∈ cs, c.isDigit = true) → ∃ m, goDigits acc cs = some m
  | [], acc, _ => ⟨acc, rfl⟩
  | c :: cs, acc, h => by
      have hc : c.isDigit = true := h c (List.mem_cons_self c cs)
      unfold goDigits
      rw [if_pos hc]
      exact goDigits_of_digits cs _ (fun c' h' => h c' (List.mem_cons_of_mem _ h'))

theorem parseDigits_of_digits (c : Char) (cs : List Char)
    (h : ∀ x ∈ c :: cs, x.isDigit = true) :
    ∃ m, parseDigits (c :: cs) = some m := by
  have hc : c.isDigit = true := h c (List.mem_cons_self c cs)
  simp only [parseDigits, hc, if_true]
  exact goDigits_of_digits cs _ (fun c' h' => h c' (List.mem_cons_of_mem _ h'))

/-- `int(s)` succeeds on a non-empty all-digit string. -/
theorem pyIntOfString_of_digits (cs : List Char) (hne : cs ≠ [])
    (hd : ∀ c ∈ cs, c.isDigit = true) :
    ∃ n : Nat, pyIntOfString (String.mk cs) = .ok (n : Int) := by
  cases cs with
  | nil => exact absurd rfl hne
  | cons c rest =>
      have hc : c.isDigit = true := hd c (List.mem_cons_self c rest)
      obtain ⟨_, hplus, hminus⟩ := digit_char_facts hc
      unfold pyIntOfString
      simp only [strip_of_digits (c :: rest) hd]
      rw [if_neg hplus, if_neg hminus]
      obtain ⟨m, hm⟩ := parseDigits_of_digits c rest hd
      rw [hm]
      exact ⟨m, rfl⟩

theorem takeDigits_spec : ∀ (n : Nat) (cs ds rest : List Char),
    takeDigits n cs = some (ds, rest) →
    (∀ c ∈ ds, c.isDigit = true) ∧ ds.length = n
  | 0, cs, ds, rest, h => by
      unfold takeDigits at h
      simp only [Option.some.injEq, Prod.mk.injEq] at h
      obtain ⟨h1, _⟩ := h
      subst h1
      exact ⟨by simp, rfl⟩
  | n + 1, [], ds, rest, h => by simp [takeDigits] at h
  | n + 1, c :: cs, ds, rest, h => by
      unfold takeDigits at h
      by_cases hc : c.isDigit = true
      · rw [if_pos hc] at h
        cases htd : takeDigits n cs with
        | none => rw [htd] at h; simp at h
        | some p =>
            obtain ⟨ds', rest'⟩ := p
            rw [htd] at h
            simp only [Option.some.injEq, Prod.mk.injEq] at h
            obtain ⟨h1, _⟩ := h
            subst h1
            obtain ⟨hds, hlen⟩ := takeDigits_spec n cs ds' rest' htd
            refine ⟨?_, by simpa using hlen⟩
            intro x hx
            rcases List.mem_cons.mp hx with hx | hx
            · exact hx ▸ hc
            · exact hds x hx
      · rw [if_neg hc] at h; simp at h

theorem take1or2Digits_spec : ∀ (cs ds rest : List Char),
    take1or2Digits cs = some (ds, rest) →
    ds ≠ [] ∧ ∀ c ∈ ds, c.isDigit = true
  | [], ds, rest, h => by simp [take1or2Digits] at h
  | [c], ds, rest, h => by
      simp only [take1or2Digits] at h
      by_cases hc : c.isDigit = true
      · rw [if_pos hc] at h
        simp only [Option.some.injEq, Prod.mk.injEq] at h
        obtain ⟨h1, _⟩ := h
        subst h1
        exact ⟨by simp, by simpa using hc⟩
      · rw [if_neg hc] at h; simp at h
  | c1 :: c2 :: rest0, ds, rest, h => by
      simp only [take1or2Digits] at h
      by_cases h1 : c1.isDigit = true
      · rw [if_pos h1] at h
        by_cases h2 : c2.isDigit = true
        · rw [if_pos h2] at h
          simp only [Option.some.injEq, Prod.mk.injEq] at h
          obtain ⟨hds, _⟩ := h
          subst hds
          refine ⟨by simp, ?_⟩
          intro x hx
          rcases List.mem_cons.mp hx with hx | hx
          · exact hx ▸ h1
          · rcases List.mem_cons.mp hx with hx | hx
            · exact hx ▸ h2
            · simp at hx
        · rw [if_neg h2] at h
          simp only [Option.some.injEq, Prod.mk.injEq] at h
          obtain ⟨hds, _⟩ := h
          subst hds
          refine ⟨by simp, ?_⟩
          intro x hx
          rcases List.mem_cons.mp hx with hx | hx
          · exact hx ▸ h1
          · simp at hx
      · rw [if_neg h1] at h; simp at h

/-- Non-empty all-digit fact for the output of `takeDigits 2`. -/
theorem takeDigits2_string_spec (cs ds rest : List Char)
    (h : takeDigits 2 cs = some (ds, rest)) :
    (String.mk ds).data ≠ [] ∧ ∀ c ∈ (String.mk ds).data, c.isDigit = true := by
  obtain ⟨hdig, hlen⟩ := takeDigits_spec 2 cs ds rest h
  refine ⟨?_, hdig⟩
  intro hnil
  rw [show (String.mk ds).data = ds from rfl] at hnil
  rw [hnil] at hlen
  simp at hlen

/-- The hour and minute groups a successful time-group match produces are
non-empty digit strings. -/
theorem matchTimeGroup_spec (cs : List Char) (sep : Char) (hh mi : String)
    (sec frac tz : Option String)
    (h : matchTimeGroup cs = some (sep, hh, mi, sec, frac, tz)) :
    (hh.data ≠ [] ∧ ∀ c ∈ hh.data, c.isDigit = true) ∧
    (mi.data ≠ [] ∧ ∀ c ∈ mi.data, c.isDigit = true) := by
  cases cs with
  | nil => simp [matchTimeGroup] at h
  | cons c rest =>
      simp only [matchTimeGroup] at h
      by_cases hnl : c = '\n'
      · rw [if_pos hnl] at h; simp at h
      · rw [if_neg hnl] at h
        cases htd : takeDigits 2 rest with
        | none => simp [htd] at h
        | some p =>
            obtain ⟨hds, rest1⟩ := p
            simp only [htd] at h
            cases hec : expectChar ':' rest1 with
            | none => simp [hec] at h
            | some rest2 =>
                simp only [hec] at h
                cases htd2 : takeDigits 2 rest2 with
                | none => simp [htd2] at h
                | some p2 =>
                    obtain ⟨ds2, rest3⟩ := p2
                    simp only [htd2, Option.some.injEq, Prod.mk.injEq] at h
                    obtain ⟨_, hh1, hm1, _⟩ := h
                    subst hh1
                    subst hm1
                    exact ⟨takeDigits2_string_spec rest hds rest1 htd,
                      takeDigits2_string_spec rest2 ds2 rest3 htd2⟩

/-- Every named group a successful `ISO8601_REGEX` match produces for
year, month, day, hour and minute is a non-empty all-digit string. -/
theorem iso8601Match_groups {s : String} {g : Iso8601Groups}
    (h : iso8601Match s = some g) :
    (g.year.data ≠ [] ∧ ∀ c ∈ g.year.data, c.isDigit = true) ∧
    (∀ m, g.month = some m → m.data ≠ [] ∧ ∀ c ∈ m.data, c.isDigit = true) ∧
    (∀ d, g.day = some d → d.data ≠ [] ∧ ∀ c ∈ d.data, c.isDigit = true) ∧
    (∀ x, g.hour = some x → x.data ≠ [] ∧ ∀ c ∈ x.data, c.isDigit = true) ∧
    (∀ x, g.minute = some x → x.data ≠ [] ∧ ∀ c ∈ x.data, c.isDigit = true) := by
  cases h4 : takeDigits 4 s.data with
  | none => simp [iso8601Match, h4] at h
  | some p =>
      obtain ⟨yyyy, rest⟩ := p
      have hyear : (String.mk yyyy).data ≠ [] ∧
          ∀ c ∈ (String.mk yyyy).data, c.isDigit = true := by
        obtain ⟨hdig, hlen⟩ := takeDigits_spec 4 s.data yyyy rest h4
        refine ⟨?_, hdig⟩
        intro hnil
        rw [show (String.mk yyyy).data = yyyy from rfl] at hnil
        rw [hnil] at hlen
        simp at hlen
      simp only [iso8601Match, h4] at h
      cases he1 : expectChar '-' rest with
      | none =>
          simp only [he1, Option.some.injEq] at h
          subst h
          exact ⟨hyear, by simp, by simp, by simp, by simp⟩
      | some rest1 =>
          simp only [he1] at h
          cases hmo : take1or2Digits rest1 with
          | none =>
              simp only [hmo, Option.some.injEq] at h
              subst h
              exact ⟨hyear, by simp, by simp, by simp, by simp⟩
          | some pmo =>
              obtain ⟨mo, rest2⟩ := pmo
              simp only [hmo] at h
              obtain ⟨hmone, hmodig⟩ := take1or2Digits_spec rest1 mo rest2 hmo
              have hmonth : ∀ m, some (String.mk mo) = some m →
                  m.data ≠ [] ∧ ∀ c ∈ m.data, c.isDigit = true := by
                intro m hm
                simp only [Option.some.injEq] at hm
                subst hm
                exact ⟨by simpa using hmone, hmodig⟩
              cases he2 : expectChar '-' rest2 with
              | none =>
                  simp only [he2, Option.some.injEq] at h
                  subst h
                  exact ⟨hyear, hmonth, by simp, by simp, by simp⟩
              | some rest3 =>
                  simp only [he2] at h
                  cases hdd : take1or2Digits rest3 with
                  | none =>
                      simp only [hdd, Option.some.injEq] at h
                      subst h
                      exact ⟨hyear, hmonth, by simp, by simp, by simp⟩
                  | some pdd =>
                      obtain ⟨dd, rest4⟩ := pdd
                      simp only [hdd] at h
                      obtain ⟨hddne, hdddig⟩ :=
                        take1or2Digits_spec rest3 dd rest4 hdd
                      have hday : ∀ d, some (String.mk dd) = some d →
                          d.data ≠ [] ∧ ∀ c ∈ d.data, c.isDigit = true := by
                        intro d hd
                        simp only [Option.some.injEq] at hd
                        subst hd
                        exact ⟨by simpa using hddne, hdddig⟩
                      cases htg : matchTimeGroup rest4 with
                      | none =>
                          simp only [htg, Option.some.injEq] at h
                          subst h
                          exact ⟨hyear, hmonth, hday, by simp, by simp⟩
                      | some ptg =>
                          obtain ⟨sep, hh, mi, sec, frac, tz⟩ := ptg
                          simp only [htg, Option.some.injEq] at h
                          subst h
                          obtain ⟨hhspec, mispec⟩ :=
                            matchTimeGroup_spec rest4 sep hh mi sec frac tz htg
                          refine ⟨hyear, hmonth, hday, ?_, ?_⟩
                          · intro x hx
                            simp only [Option.some.injEq] at hx
                            subst hx
                            exact hhspec
                          · intro x hx
                            simp only [Option.some.injEq] at hx
                            subst hx
                            exact mispec

/-- Pair deserialization only succeeds on even-length child lists. -/
theorem deserializePairs_ok_even {Flt : Type}
    (fos : String → Except PyErr Flt) (ftm : String → Nat) :
    ∀ (a : List Elem) (ps : List (String × PyVal Flt)),
      deserializePairs fos ftm a = .ok ps → a.length % 2 = 0
  | [], _, _ => rfl
  | [x], ps, h => by simp [deserializePairs] at h
  | x :: y :: a', ps, h => by
      simp only [deserializePairs] at h
      by_cases hx : x.tag = some "key"
      · rw [if_neg (not_not_intro hx)] at h
        cases hdy : deserialize fos ftm y with
        | error e => simp [hdy] at h
        | ok vy =>
            simp only [hdy] at h
            cases hpa : deserializePairs fos ftm a' with
            | error e => simp [hpa] at h
            | ok r =>
                have heven := deserializePairs_ok_even fos ftm a' r hpa
                simp only [List.length_cons]
                omega
      · rw [if_pos hx] at h
        simp at h

/-- When every pair of a prefix deserializes cleanly, a non-`key` element
in the key position that follows the prefix produces
`MissingKeyTagError`. -/
theorem deserializePairs_append_bad {Flt : Type}
    (fos : String → Except PyErr Flt) (ftm : String → Nat) :
    ∀ (a : List Elem) (ps : List (String × PyVal Flt)) (k v : Elem)
      (rest : List Elem),
      deserializePairs fos ftm a = .ok ps → k.tag ≠ some "key" →
      deserializePairs fos ftm (a ++ k :: v :: rest) = .error .missingKeyTag
  | [], ps, k, v, rest, _, hk => by
      simp only [List.nil_append, deserializePairs]
      rw [if_pos hk]
  | [x], ps, k, v, rest, h, hk => by simp [deserializePairs] at h
  | x :: y :: a', ps, k, v, rest, h, hk => by
      simp only [deserializePairs] at h
      simp only [List.cons_append, deserializePairs]
      by_cases hx : x.tag = some "key"
      · rw [if_neg (not_not_intro hx)] at h ⊢
        cases hdy : deserialize fos ftm y with
        | error e => simp [hdy] at h
        | ok vy =>
            simp only [hdy] at h ⊢
            cases hpa : deserializePairs fos ftm a' with
            | error e => simp [hpa] at h
            | ok r =>
                simp only [List.append_eq,
                  deserializePairs_append_bad fos ftm a' r k v rest hpa hk]
      · rw [if_pos hx] at h
        simp at h

/-- Unfolding `deserialize` on a `dict` element. -/
theorem deserialize_dict_eq {Flt : Type}
    (fos : String → Except PyErr Flt) (ftm : String → Nat)
    (a : List (String × String)) (t : Option String)
    (children : List Elem) :
    deserialize fos ftm (.mk (some "dict") a t children) =
      if children.length % 2 ≠ 0 then .error .incompleteDictionary
      else (deserializePairs fos ftm children).map
        (fun ps => .dict true
          (ps.foldl (fun acc p => odInsert acc p.1 p.2) [])) := rfl

/-- `insertByKey` commutes with mapping over the values. -/
theorem insertByKey_map {α β : Type} (f : α → β) (pk : String) (pv : α) :
    ∀ (l : List (String × α)),
      insertByKey (pk, f pv) (l.map (fun kv => (kv.1, f kv.2))) =
        (insertByKey (pk, pv) l).map (fun kv => (kv.1, f kv.2))
  | [] => rfl
  | (qk, qv) :: qs => by
      simp only [List.map_cons, insertByKey]
      by_cases hq : qk < pk
      · rw [if_pos hq, if_pos hq, List.map_cons,
          insertByKey_map f pk pv qs]
      · rw [if_neg hq, if_neg hq]
        simp

/-- The stable key sort commutes with mapping over the values. -/
theorem sortByKey_map {α β : Type} (f : α → β) :
    ∀ (l : List (String × α)),
      sortByKey (l.map (fun kv => (kv.1, f kv.2))) =
        (sortByKey l).map (fun kv => (kv.1, f kv.2))
  | [] => rfl
  | (k, v) :: ps => by
      simp only [List.map_cons, sortByKey]
      rw [sortByKey_map f ps, insertByKey_map f k v (sortByKey ps)]

theorem insertByKey_perm {α : Type} (p : String × α) :
    ∀ (l : List (String × α)), (insertByKey p l).Perm (p :: l)
  | [] => List.Perm.refl _
  | q :: qs => by
      simp only [insertByKey]
      by_cases hq : q.1 < p.1
      · rw [if_pos hq]
        exact ((insertByKey_perm p qs).cons q).trans (List.Perm.swap p q qs)
      · rw [if_neg hq]

/-- The key sort is a permutation of the input. -/
theorem sortByKey_perm {α : Type} :
    ∀ (l : List (String × α)), (sortByKey l).Perm l
  | [] => List.Perm.refl _
  | p :: ps =>
      (insertByKey_perm p (sortByKey ps)).trans ((sortByKey_perm ps).cons p)

theorem insertByKey_pairwise {α : Type} (p : String × α) :
    ∀ (l : List (String × α)),
      List.Pairwise (fun a b : String × α => a.1 ≤ b.1) l →
      List.Pairwise (fun a b : String × α => a.1 ≤ b.1) (insertByKey p l)
  | [], _ => by simp [insertByKey]
  | q :: qs, hl => by
      obtain ⟨hq_all, hqs⟩ := List.pairwise_cons.mp hl
      simp only [insertByKey]
      by_cases hq : q.1 < p.1
      · rw [if_pos hq]
        refine List.pairwise_cons.mpr ⟨?_, insertByKey_pairwise p qs hqs⟩
        intro b hb
        rcases List.mem_cons.mp ((insertByKey_perm p qs).mem_iff.mp hb) with
          hb' | hb'
        · exact hb' ▸ le_of_lt hq
        · exact hq_all b hb'
      · rw [if_neg hq]
        have hpq : p.1 ≤ q.1 := le_of_not_lt hq
        refine List.pairwise_cons.mpr ⟨?_, hl⟩
        intro b hb
        rcases List.mem_cons.mp hb with hb' | hb'
        · exact hb' ▸ hpq
        · exact le_trans hpq (hq_all b hb')

/-- The key sort produces ascending key order. -/
theorem sortByKey_pairwise {α : Type} :
    ∀ (l : List (String × α)),
      List.Pairwise (fun a b : String × α => a.1 ≤ b.1) (sortByKey l)
  | [] => List.Pairwise.nil
  | p :: ps => insertByKey_pairwise p (sortByKey ps) (sortByKey_pairwise ps)

/-- `serializeEntries` is a value-wise map. -/
theorem serializeEntries_eq_map {Flt : Type} (floatRepr : Flt → String) :
    ∀ (entries : List (String × PyVal Flt)),
      serializeEntries floatRepr entries =
        entries.map (fun kv => (kv.1, serializeVal floatRepr kv.2))
  | [] => rfl
  | (k, v) :: rest => by
      simp only [serializeEntries, List.map_cons]
      rw [serializeEntries_eq_map floatRepr rest]

/-! ## Claims -/

/-- C1: the claimed round trip `deserialize(serialize(v)) == v` for values
from the eight supported variants fails for the empty string: the
serializer emits `<string/>` (the empty text is falsy, so `tag` never
attaches it), and the deserializer applies `str` to the element's absent
text, producing the four-character string `"None"` instead of `""`. -/
theorem c1_roundtrip_failure :
    deserialize unitFloatOfStr zeroFracToMicro
      (serializeVal unitFloatRepr (.str "")) = .ok (.str "None") ∧
    serializeVal unitFloatRepr (.str "") =
      .mk (some "string") [] Option.none [] ∧
    (PyVal.str "None" : PyVal Unit) ≠ .str "" :=
  ⟨rfl, rfl, by simp⟩

/-- C2: decoding the canonical Apple reference document (as the element
tree the XML parser produces for it) yields exactly the documented ordered
mapping, and re-encoding that mapping reproduces the reference document
byte for byte — fixed header, tab indentation, and the self-closing empty
`<array/>` included. -/
theorem c2_canonical_example :
    fromtree unitFloatOfStr zeroFracToMicro exampleTree = .ok exampleValue ∧
    dumps unitFloatRepr exampleValue = exampleDocument :=
  ⟨rfl, by decide⟩

/-- C3: serializing `True`, `False` and `None` does produce the `true`,
`false` and `undef` tags, but the elements are not empty: `tag`'s default
argument `data=None` is stringified to the truthy `"None"`, which becomes
the element text. -/
theorem c3_static_tags_carry_none_text :
    serializeVal unitFloatRepr (.bool true) =
      .mk (some "true") [] (some "None") [] ∧
    serializeVal unitFloatRepr (.bool false) =
      .mk (some "false") [] (some "None") [] ∧
    serializeVal unitFloatRepr (PyVal.none : PyVal Unit) =
      .mk (some "undef") [] (some "None") [] :=
  ⟨rfl, rfl, rfl⟩

/-- C4: deserializing a `string` element returns the text verbatim when
text is present, but an absent (equivalently, empty — the XML parser
stores both as `None`) text deserializes to `str(None) = "None"`, not to
the empty string. -/
theorem c4_string_text_bug :
    (∀ s : String, deserialize unitFloatOfStr zeroFracToMicro
      (.mk (some "string") [] (some s) []) = .ok (.str s)) ∧
    deserialize unitFloatOfStr zeroFracToMicro
      (.mk (some "string") [] Option.none []) = .ok (.str "None") ∧
    (PyVal.str "None" : PyVal Unit) ≠ .str "" :=
  ⟨fun _ => rfl, rfl, by simp⟩

/-- C6 counterexample: an input consisting solely of characters outside
the base64 alphabet decodes silently to empty bytes instead of failing. -/
theorem c6_counterexample :
    decodes2b "$$$$" = .ok [] ∧ b64val '$' = Option.none :=
  ⟨rfl, rfl⟩

/-- C6 (amended): the decoder silently ignores non-alphabet characters —
an input with no alphabet characters at all decodes to empty bytes — and
fails with `binascii.Error('Incorrect padding')` only when the retained
alphabet characters leave residual bits, as in the single-character input
`"A"`. -/
theorem c6_amended_nonalphabet_ignored :
    (∀ s : String, (∀ c ∈ s.data, b64val c = Option.none) →
      decodes2b s = .ok []) ∧
    decodes2b "A" = .error .incorrectPadding :=
  ⟨fun s h => a2bLoop_all_invalid s.data h, rfl⟩

/-- C6 witness: the amended theorem applied to a concrete garbage input. -/
theorem c6_witness : decodes2b "!!!" = .ok [] :=
  c6_amended_nonalphabet_ignored.1 "!!!" (by decide)

/-- C10: serialization dispatches `True`/`False`/`None` by identity before
the `TYPES_WRAP` `isinstance` lookup: although that lookup would classify a
bool as `integer` (bool being an int subtype), bools serialize under the
`true`/`false` tags and `None` under `undef`, never as `integer`
elements. -/
theorem c10_static_dispatch_precedes_wrap :
    ∀ {Flt : Type} (floatRepr : Flt → String) (b : Bool),
      isStatic (PyVal.bool b : PyVal Flt) = true ∧
      wrapType (PyVal.bool b : PyVal Flt) = some "integer" ∧
      (serializeVal floatRepr (PyVal.bool b)).tag =
        some (if b then "true" else "false") ∧
      isStatic (PyVal.none : PyVal Flt) = true ∧
      (serializeVal floatRepr (PyVal.none : PyVal Flt)).tag = some "undef" := by
  intro Flt floatRepr b
  cases b <;> exact ⟨rfl, rfl, rfl, rfl, rfl⟩

/-- C5 counterexample: the bare year `"2007"` matches the grammar (every
component after the year is optional), but `parse_date` raises `TypeError`
(`int(None)` on the missing month group) instead of defaulting month and
day to 1. -/
theorem c5_counterexample :
    iso8601Match "2007" = some ⟨"2007", Option.none, Option.none, Option.none,
      Option.none, Option.none, Option.none, Option.none, Option.none⟩ ∧
    parse_date zeroFracToMicro (some "2007") = .error .typeError :=
  ⟨rfl, rfl⟩

/-- C5 (amended): the parsing grammar is
`YYYY(-MM(-DDThh:mm(:ss(.fraction)?)?(Z|±hh:mm)?)?)?` as claimed, but the
parser never defaults missing components: whenever a match lacks month,
day, hour, minute or second, `parse_date` raises `TypeError` (`int(None)`)
rather than producing a 1/1-0:00:00-defaulted timestamp; only a missing
fraction (→ 0 µs) and a missing timezone (→ UTC) are defaulted, as on the
fully specified `"2007-01-25T12:00:00Z"`. -/
theorem c5_amended_no_defaulting :
    (∀ (fracToMicro : String → Nat) (s : String) (g : Iso8601Groups),
       iso8601Match s = some g →
       (g.month = Option.none ∨ g.day = Option.none ∨ g.hour = Option.none ∨
         g.minute = Option.none ∨ g.second = Option.none) →
       parse_date fracToMicro (some s) = .error .typeError) ∧
    parse_date zeroFracToMicro (some "2007-01-25T12:00:00Z") =
      .ok ⟨2007, 1, 25, 12, 0, 0, 0, some 0⟩ := by
  refine ⟨?_, rfl⟩
  intro f s g hm hmiss
  obtain ⟨hyear, hmonth, hday, hhour, hminute⟩ := iso8601Match_groups hm
  obtain ⟨ny, hy⟩ := pyIntOfString_of_digits g.year.data hyear.1 hyear.2
  have hy' : pyIntOfGroup (some g.year) = .ok (ny : Int) := hy
  simp only [parse_date, hm, hy']
  cases hmo : g.month with
  | none => simp [pyIntOfGroup]
  | some m =>
      have hmfacts := hmonth m hmo
      obtain ⟨nm, hnm⟩ := pyIntOfString_of_digits m.data hmfacts.1 hmfacts.2
      have hnm' : pyIntOfGroup (some m) = .ok (nm : Int) := hnm
      simp only [hnm']
      cases hd : g.day with
      | none => simp [pyIntOfGroup]
      | some d =>
          have hdfacts := hday d hd
          obtain ⟨nd, hnd⟩ := pyIntOfString_of_digits d.data hdfacts.1 hdfacts.2
          have hnd' : pyIntOfGroup (some d) = .ok (nd : Int) := hnd
          simp only [hnd']
          cases hh : g.hour with
          | none => simp [pyIntOfGroup]
          | some x =>
              have hxfacts := hhour x hh
              obtain ⟨nx, hnx⟩ :=
                pyIntOfString_of_digits x.data hxfacts.1 hxfacts.2
              have hnx' : pyIntOfGroup (some x) = .ok (nx : Int) := hnx
              simp only [hnx']
              cases hmi : g.minute with
              | none => simp [pyIntOfGroup]
              | some mi =>
                  have hmifacts := hminute mi hmi
                  obtain ⟨nmi, hnmi⟩ :=
                    pyIntOfString_of_digits mi.data hmifacts.1 hmifacts.2
                  have hnmi' : pyIntOfGroup (some mi) = .ok (nmi : Int) :=
                    hnmi
                  simp only [hnmi']
                  cases hs : g.second with
                  | none => simp [pyIntOfGroup]
                  | some sec =>
                      rw [hmo, hd, hh, hmi, hs] at hmiss
                      simp at hmiss

/-- C5 witness: a year-month-only string matches the grammar with all time
components missing, and parsing it raises `TypeError`. -/
theorem c5_witness :
    parse_date zeroFracToMicro (some "2007-01") = .error .typeError :=
  c5_amended_no_defaulting.1 zeroFracToMicro "2007-01"
    ⟨"2007", some "01", Option.none, Option.none, Option.none, Option.none,
      Option.none, Option.none, Option.none⟩
    rfl (Or.inr (Or.inl rfl))

/-- C8 counterexample: in a four-child `dict` whose third child (an
even-indexed key position) is a non-`key` element, an unknown tag among the
earlier pair's value preempts the missing-key check: deserialization fails
with `UnknownTagError('foo')`, not `MissingKeyTagError`. -/
theorem c8_counterexample :
    deserialize unitFloatOfStr zeroFracToMicro
      (.mk (some "dict") [] Option.none
        [keyElemOf "a", .mk (some "foo") [] Option.none [],
         stringElemOf "x", stringElemOf "y"]) =
      .error (.unknownTag (some "foo")) ∧
    (stringElemOf "x").tag ≠ some "key" ∧
    PyErr.unknownTag (some "foo") ≠ PyErr.missingKeyTag :=
  ⟨rfl, by simp [stringElemOf, Elem.tag], by simp⟩

/-- C8 (amended): a `dict` with an odd child count always fails with
`IncompleteDictionaryError` (the length check precedes any pair
processing). With an even count the pairs are examined left to right, so
`MissingKeyTagError` is raised for a non-`key` element in key position
exactly when every earlier pair had a `key` key and a value that
deserialized successfully; an earlier pair's error propagates instead. -/
theorem c8_amended_error_order :
    ∀ {Flt : Type} (fos : String → Except PyErr Flt) (ftm : String → Nat),
    (∀ (a : List (String × String)) (t : Option String)
       (children : List Elem), children.length % 2 = 1 →
       deserialize fos ftm (.mk (some "dict") a t children) =
         .error .incompleteDictionary) ∧
    (∀ (pre : List Elem) (ps : List (String × PyVal Flt)) (k v : Elem)
       (rest : List Elem),
       deserializePairs fos ftm pre = .ok ps → rest.length % 2 = 0 →
       k.tag ≠ some "key" →
       deserialize fos ftm
           (.mk (some "dict") [] Option.none (pre ++ k :: v :: rest)) =
         .error .missingKeyTag) := by
  intro Flt fos ftm
  constructor
  · intro a t children hodd
    rw [deserialize_dict_eq]
    rw [if_pos (by omega)]
  · intro pre ps k v rest hpre hrest hk
    have hpreeven := deserializePairs_ok_even fos ftm pre ps hpre
    rw [deserialize_dict_eq]
    rw [if_neg (by simp only [List.length_append, List.length_cons]; omega)]
    rw [deserializePairs_append_bad fos ftm pre ps k v rest hpre hk]
    rfl

/-- C8 witness: the amended theorem applied to an empty prefix — a `dict`
whose first child is a `string` element fails with `MissingKeyTagError`. -/
theorem c8_witness :
    deserialize unitFloatOfStr zeroFracToMicro
      (.mk (some "dict") [] Option.none
        [stringElemOf "x", stringElemOf "y"]) = .error .missingKeyTag :=
  (c8_amended_error_order unitFloatOfStr zeroFracToMicro).2 []
    [] (stringElemOf "x") (stringElemOf "y") [] rfl rfl
    (by simp [stringElemOf, Elem.tag])

/-- C9: serializing a `Dict` emits, for each entry, a `key` element
immediately followed by the serialized value element — in insertion order
for "ordered" (OrderedDict) provenance, and otherwise in the stable
ascending lexicographic key order `sorted` produces (the sorted entry list
is a permutation of the original whose keys are pairwise ≤). The source
sorts the keys first and then serializes each value; as the sort is stable
and compares only keys, it commutes with per-entry serialization. -/
theorem c9_dict_serialization_order :
    ∀ {Flt : Type} (floatRepr : Flt → String) (ordered : Bool)
      (entries : List (String × PyVal Flt)),
      serializeVal floatRepr (.dict ordered entries) =
        .mk (some "dict") [] Option.none
          ((if ordered then entries else sortByKey entries).flatMap
            (fun kv => [tagElem (some "key") (some kv.1),
              serializeVal floatRepr kv.2])) ∧
      (sortByKey entries).Perm entries ∧
      List.Pairwise (fun p q : String × PyVal Flt => p.1 ≤ q.1)
        (sortByKey entries) := by
  intro Flt floatRepr ordered entries
  refine ⟨?_, sortByKey_perm entries, sortByKey_pairwise entries⟩
  rw [show serializeVal floatRepr (PyVal.dict ordered entries) =
      Elem.mk (some "dict") [] Option.none
        ((dictOrder ordered (serializeEntries floatRepr entries)).flatMap
          (fun p => [tagElem (some "key") (some p.1), p.2])) from rfl]
  rw [serializeEntries_eq_map]
  cases ordered with
  | true =>
      simp only [dictOrder, if_true]
      rw [List.flatMap_map]
  | false =>
      simp only [dictOrder, Bool.false_eq_true, if_false]
      rw [sortByKey_map, List.flatMap_map]

end Plist
